import Mathlib

/-!
Verification of the property schema / bidirectional codec engine of the
wattpilot MQTT bridge (`src/wattpilot/wattpilotshell.py`).

The Python runtime values flowing through the codec are modelled by the
inductive type `PVal`.  A Python string that is the `json.dumps`
serialization of a value `v` is represented by the constructor
`PVal.vJsonStr v`; an ordinary string literal is `PVal.vStr s`.  Plain
dictionaries are `vObj`, `types.SimpleNamespace` objects are `vNs`
(the two behave differently: `json.loads` produces dictionaries, while
the decomposition loop reads `value.__dict__`, which only exists on
namespaces).  Python floats are idealized as rationals.

Functions that can raise in Python are modelled with `Option` results,
`none` standing for an uncaught exception.
-/

namespace Wattpilot

/-- Model of the dynamically typed Python values handled by the codec. -/
inductive PVal where
  | vNone : PVal
  | vBool : Bool → PVal
  | vInt : Int → PVal
  | vFloat : Rat → PVal
  | vStr : String → PVal
  | vJsonStr : PVal → PVal
  | vArr : List PVal → PVal
  | vNs : List (String × PVal) → PVal
  | vObj : List (String × PVal) → PVal

/-- A child property's `valueRef`: an array index or an object field name. -/
inductive VRef where
  | idx : Int → VRef
  | field : String → VRef
deriving DecidableEq, Repr

/-- The optional `homeAssistant` hint block of a property definition.
A block that is present but null in the catalog is modelled as
`some { component := none }` (the source collapses null to an empty
dict via `pd["homeAssistant"] or {}`, but presence still matters for
`ha_get_default_config_for_prop`). -/
structure HaInfo where
  component : Option String
deriving DecidableEq, Repr

/-- A property definition entry of the catalog (a Python dict in the
source); absent keys are `none`.  `valueMap` is the ordered raw-string
to display-label mapping, `childProps` the ordered child definitions. -/
inductive Pd where
  | mk (key : String) (jsonType : Option String) (rw : Option String)
       (valueMap : Option (List (String × String)))
       (valueRef : Option VRef)
       (compoundProperty : Option String)
       (homeAssistant : Option HaInfo)
       (childProps : Option (List Pd)) : Pd

def Pd.key : Pd → String
  | .mk k _ _ _ _ _ _ _ => k

def Pd.jsonType : Pd → Option String
  | .mk _ jt _ _ _ _ _ _ => jt

def Pd.rw : Pd → Option String
  | .mk _ _ rw _ _ _ _ _ => rw

def Pd.valueMap : Pd → Option (List (String × String))
  | .mk _ _ _ vm _ _ _ _ => vm

def Pd.valueRef : Pd → Option VRef
  | .mk _ _ _ _ vr _ _ _ => vr

def Pd.compoundProperty : Pd → Option String
  | .mk _ _ _ _ _ cp _ _ => cp

def Pd.homeAssistant : Pd → Option HaInfo
  | .mk _ _ _ _ _ _ ha _ => ha

def Pd.childProps : Pd → Option (List Pd)
  | .mk _ _ _ _ _ _ _ c => c

/-- Convenience constructor for a leaf property definition. -/
def Pd.leaf (key : String) (jsonType rw : Option String)
    (valueMap : Option (List (String × String)) := none) : Pd :=
  .mk key jsonType rw valueMap none none none none

/-- `cp["compoundProperty"] = parentKey` (wp_read_config, line 79). -/
def Pd.setCompound : Pd → String → Pd
  | .mk k jt rw vm vr _ ha c, parent => .mk k jt rw vm vr (some parent) ha c

/-! ### Small string helpers (Python dict lookup, characters) -/

/-- Lookup in a Python dict modelled as an insertion-ordered
association list (keys are unique in an actual dict). -/
def alookup {α : Type} : List (String × α) → String → Option α
  | [], _ => none
  | kv :: rest, key => if kv.1 = key then some kv.2 else alookup rest key

def dquoteChar : Char := Char.ofNat 34

def backslashChar : Char := Char.ofNat 92

def squoteChar : Char := Char.ofNat 39

def lbraceChar : Char := Char.ofNat 123

def rbraceChar : Char := Char.ofNat 125

def digitsToNat (l : List Char) : Nat :=
  l.foldl (fun a c => a * 10 + (c.toNat - 48)) 0

/-- Decimal rendering support: the least `k` with `d` dividing `10 ^ k`,
searched with explicit fuel. -/
def denExpAux (d : Nat) : Nat → Nat → Option Nat
  | _, 0 => none
  | k, fuel + 1 => if d ∣ 10 ^ k then some k else denExpAux d (k + 1) fuel

/-- Left-pad a numeral string with zeros to width `k`. -/
def padZeros (s : String) (k : Nat) : String :=
  String.mk (List.replicate (k - s.length) '0') ++ s

/-- Rendering of a Python float (idealized as a rational) the way
`str`/`repr`/`json.dumps` print it, for denominators dividing a power
of ten; other rationals (never produced by the decimal parser) fall
back to the raw rational rendering. -/
def floatRepr (q : Rat) : String :=
  match denExpAux q.den 0 40 with
  | none => toString q
  | some 0 => toString q.num ++ ".0"
  | some k =>
      let m := q.num.natAbs * (10 ^ k / q.den)
      (if q.num < 0 then "-" else "") ++ toString (m / 10 ^ k) ++ "." ++
        padZeros (toString (m % 10 ^ k)) k

/-! ### `json.dumps` and Python `str`/`repr` -/

/-- JSON string escaping (the common escapes produced by `json.dumps`). -/
def jsonEscapeChar (c : Char) : String :=
  if c = dquoteChar then String.mk [backslashChar, dquoteChar]
  else if c = backslashChar then String.mk [backslashChar, backslashChar]
  else if c = '\n' then String.mk [backslashChar, 'n']
  else if c = '\t' then String.mk [backslashChar, 't']
  else if c = '\r' then String.mk [backslashChar, 'r']
  else String.mk [c]

def jsonEscape (s : String) : String :=
  String.join (s.data.map jsonEscapeChar)

def jsonQuote (s : String) : String :=
  String.mk [dquoteChar] ++ jsonEscape s ++ String.mk [dquoteChar]

mutual

/-- `json.dumps(value, cls=JSONNamespaceEncoder)` (utils_value2json):
namespaces serialize through their `__dict__`, like plain dicts. -/
def jsonDumps : PVal → String
  | .vNone => "null"
  | .vBool b => cond b "true" "false"
  | .vInt n => toString n
  | .vFloat q => floatRepr q
  | .vStr s => jsonQuote s
  | .vJsonStr w => jsonQuote (jsonDumps w)
  | .vArr l => "[" ++ String.intercalate ", " (jsonDumpsList l) ++ "]"
  | .vNs kvs =>
      String.mk [lbraceChar] ++ String.intercalate ", " (jsonDumpsKList kvs) ++
        String.mk [rbraceChar]
  | .vObj kvs =>
      String.mk [lbraceChar] ++ String.intercalate ", " (jsonDumpsKList kvs) ++
        String.mk [rbraceChar]
termination_by v => sizeOf v

def jsonDumpsList : List PVal → List String
  | [] => []
  | v :: r => jsonDumps v :: jsonDumpsList r
termination_by l => sizeOf l

def jsonDumpsKList : List (String × PVal) → List String
  | [] => []
  | (k, v) :: r => (jsonQuote k ++ ": " ++ jsonDumps v) :: jsonDumpsKList r
termination_by l => sizeOf l

end

mutual

/-- Python `repr`, which `str` delegates to on containers. -/
def pyRepr : PVal → String
  | .vNone => "None"
  | .vBool b => cond b "True" "False"
  | .vInt n => toString n
  | .vFloat q => floatRepr q
  | .vStr s => String.mk [squoteChar] ++ s ++ String.mk [squoteChar]
  | .vJsonStr w => String.mk [squoteChar] ++ jsonDumps w ++ String.mk [squoteChar]
  | .vArr l => "[" ++ String.intercalate ", " (pyReprList l) ++ "]"
  | .vNs kvs =>
      "namespace(" ++ String.intercalate ", " (pyReprNsList kvs) ++ ")"
  | .vObj kvs =>
      String.mk [lbraceChar] ++ String.intercalate ", " (pyReprKList kvs) ++
        String.mk [rbraceChar]
termination_by v => sizeOf v

def pyReprList : List PVal → List String
  | [] => []
  | v :: r => pyRepr v :: pyReprList r
termination_by l => sizeOf l

def pyReprNsList : List (String × PVal) → List String
  | [] => []
  | (k, v) :: r => (k ++ "=" ++ pyRepr v) :: pyReprNsList r
termination_by l => sizeOf l

def pyReprKList : List (String × PVal) → List String
  | [] => []
  | (k, v) :: r =>
      (String.mk [squoteChar] ++ k ++ String.mk [squoteChar] ++ ": " ++ pyRepr v) ::
        pyReprKList r
termination_by l => sizeOf l

end

/-- Python `str(value)`, as used for the value-map key lookup
(`str(value) in list(pd["valueMap"].keys())`, line 482). `str` is the
identity on strings and agrees with `repr` on the other types handled
here (numbers, booleans, None, containers). -/
def pyToStr (v : PVal) : String :=
  match v with
  | .vNone => "None"
  | .vBool b => cond b "True" "False"
  | .vInt n => toString n
  | .vFloat q => floatRepr q
  | .vStr s => s
  | .vJsonStr w => jsonDumps w
  | w => pyRepr w

/-! ### `json.loads` on scalar texts

The value maps of the catalog map raw-value *strings* to labels;
`mqtt_get_remapped_value` runs `json.loads` on the matching key.  The
parser below covers the scalar JSON grammar (null, booleans, numbers,
strings); structured texts enter the model only through the symbolic
`vJsonStr` constructor, and a text that the grammar rejects makes
`json.loads` raise, modelled as `none`. -/

def unescapeChar (c : Char) : Option Char :=
  if c = dquoteChar then some dquoteChar
  else if c = backslashChar then some backslashChar
  else if c = '/' then some '/'
  else if c = 'n' then some '\n'
  else if c = 't' then some '\t'
  else if c = 'r' then some '\r'
  else none

def parseStrLitAux (acc : List Char) : List Char → Option String
  | [] => none
  | c :: rest =>
    if c = dquoteChar then
      if rest.isEmpty then some (String.mk acc.reverse) else none
    else if c = backslashChar then
      match rest with
      | [] => none
      | e :: rest2 =>
        match unescapeChar e with
        | some d => parseStrLitAux (d :: acc) rest2
        | none => none
    else parseStrLitAux (c :: acc) rest

/-- Parse the exponent `e` of a JSON number, returning the scale `10 ^ e`. -/
def parseExpPart (cs : List Char) : Option Rat :=
  let (neg, cs1) :=
    match cs with
    | '-' :: r => (true, r)
    | '+' :: r => (false, r)
    | _ => (false, cs)
  let (ds, rest) := cs1.span Char.isDigit
  if ds.isEmpty ∨ ¬ rest.isEmpty then none
  else
    let e := digitsToNat ds
    some (if neg then 1 / (10 : Rat) ^ e else (10 : Rat) ^ e)

def parseJsonNumber (cs : List Char) : Option PVal :=
  let (neg, cs1) :=
    match cs with
    | '-' :: r => (true, r)
    | _ => (false, cs)
  let (ipart, rest) := cs1.span Char.isDigit
  if ipart.isEmpty then none
  else if ipart.length > 1 ∧ ipart.head? = some '0' then none
  else
    let iv : Int := Int.ofNat (digitsToNat ipart)
    let sign : Int := if neg then -1 else 1
    match rest with
    | [] => some (.vInt (sign * iv))
    | '.' :: r2 =>
        let (fpart, rest2) := r2.span Char.isDigit
        if fpart.isEmpty then none
        else
          let mant : Rat :=
            (sign : Rat) *
              ((iv : Rat) + (digitsToNat fpart : Rat) / (10 : Rat) ^ fpart.length)
          match rest2 with
          | [] => some (.vFloat mant)
          | e :: r3 =>
            if e = 'e' ∨ e = 'E' then
              (parseExpPart r3).map (fun sc => .vFloat (mant * sc))
            else none
    | e :: r3 =>
        if e = 'e' ∨ e = 'E' then
          (parseExpPart r3).map (fun sc => .vFloat ((sign : Rat) * (iv : Rat) * sc))
        else none

/-- `json.loads` applied to a raw text (used on value-map keys). -/
def jsonLoadsStr (s : String) : Option PVal :=
  if s = "true" then some (.vBool true)
  else if s = "false" then some (.vBool false)
  else if s = "null" then some .vNone
  else
    match s.data with
    | [] => none
    | c :: rest =>
      if c = dquoteChar then (parseStrLitAux [] rest).map .vStr
      else parseJsonNumber s.data

mutual

/-- The value `json.loads` returns for the text `json.dumps v`:
parsing can only produce plain JSON data, so namespaces come back as
plain dicts (their serialized `__dict__`) and a string is a plain
string whatever value it was itself the serialization of. -/
def jsonNorm : PVal → PVal
  | .vNone => .vNone
  | .vBool b => .vBool b
  | .vInt n => .vInt n
  | .vFloat q => .vFloat q
  | .vStr s => .vStr s
  | .vJsonStr w => .vStr (jsonDumps w)
  | .vArr l => .vArr (jsonNormList l)
  | .vNs kvs => .vObj (jsonNormKList kvs)
  | .vObj kvs => .vObj (jsonNormKList kvs)
termination_by v => sizeOf v

def jsonNormList : List PVal → List PVal
  | [] => []
  | v :: r => jsonNorm v :: jsonNormList r
termination_by l => sizeOf l

def jsonNormKList : List (String × PVal) → List (String × PVal)
  | [] => []
  | (k, v) :: r => (k, jsonNorm v) :: jsonNormKList r
termination_by l => sizeOf l

end

/-- `json.loads` applied to a Python value: raises on non-strings;
applied to a dumped text it yields the JSON reading of the serialized
value (namespaces become plain dicts throughout). -/
def jsonLoads (value : PVal) : Option PVal :=
  match value with
  | .vJsonStr w => some (jsonNorm w)
  | .vStr s => jsonLoadsStr s
  | _ => none

/-! ### The property codec (mqtt_get_* functions, lines 479-538) -/

/-- Python `==` between an arbitrary value and a display-label string,
as used by the `in`/`.index` reverse lookups over
`pd["valueMap"].values()`: only strings compare equal to strings. -/
def pyStrEq (v : PVal) (label : String) : Bool :=
  match v with
  | .vStr s => s == label
  | .vJsonStr w => jsonDumps w == label
  | _ => false

/-- `mqtt_get_mapped_value` (lines 479-487): map a raw scalar through
the value map by its `str` form, falling back to the raw value (with a
logged warning) when the string form is not a key. -/
def mqtt_get_mapped_value (pd : Pd) (value : PVal) : PVal :=
  match pd.valueMap with
  | none => value
  | some m =>
    match alookup m (pyToStr value) with
    | some label => .vStr label
    | none => value

/-- One Python string per character, for `for v in value` iteration
over a string. -/
def charsOf (s : String) : List PVal :=
  s.data.map (fun c => .vStr (String.mk [c]))

/-- `mqtt_get_mapped_property` (lines 490-497): apply the value map
element-wise when `jsonType` is `array`, otherwise to the scalar.
Iterating a Python string yields its characters and iterating a dict
yields its keys; iterating a non-iterable raises (`none`). -/
def mqtt_get_mapped_property (pd : Pd) (value : PVal) : Option PVal :=
  if pd.jsonType = some "array" then
    match value with
    | .vArr l => some (.vArr (l.map (mqtt_get_mapped_value pd)))
    | .vStr s => some (.vArr ((charsOf s).map (mqtt_get_mapped_value pd)))
    | .vJsonStr w =>
        some (.vArr ((charsOf (jsonDumps w)).map (mqtt_get_mapped_value pd)))
    | .vObj kvs =>
        some (.vArr (kvs.map (fun kv => mqtt_get_mapped_value pd (.vStr kv.1))))
    | _ => none
  else some (mqtt_get_mapped_value pd value)

/-- The key paired with the first value-map entry whose label equals
the given (mapped) value: `list(keys)[list(values).index(mapped_value)]`
of lines 504-505. -/
def firstLabelKey (m : List (String × String)) (mapped_value : PVal) : Option String :=
  match m with
  | [] => none
  | kv :: rest =>
    if pyStrEq mapped_value kv.2 then some kv.1 else firstLabelKey rest mapped_value

/-- `mqtt_get_remapped_value` (lines 500-509): reverse value-map lookup
by label; a hit returns `json.loads` of the first matching raw key
(which raises, i.e. `none`, when the key is not valid JSON), a miss
logs a warning and returns the mapped value unchanged. -/
def mqtt_get_remapped_value (pd : Pd) (mapped_value : PVal) : Option PVal :=
  match pd.valueMap with
  | none => some mapped_value
  | some m =>
    match firstLabelKey m mapped_value with
    | some k => jsonLoadsStr k
    | none => some mapped_value

/-- The element-wise loop of `mqtt_get_remapped_property`
(lines 514-516), propagating a raised exception. -/
def mqtt_get_remapped_list (pd : Pd) : List PVal → Option (List PVal)
  | [] => some []
  | v :: rest =>
    match mqtt_get_remapped_value pd v with
    | none => none
    | some r =>
      match mqtt_get_remapped_list pd rest with
      | none => none
      | some rs => some (r :: rs)

/-- `mqtt_get_remapped_property` (lines 512-519): element-wise reverse
mapping for `array`-typed properties, scalar reverse mapping otherwise. -/
def mqtt_get_remapped_property (pd : Pd) (mapped_value : PVal) : Option PVal :=
  if pd.jsonType = some "array" then
    match mapped_value with
    | .vArr l => (mqtt_get_remapped_list pd l).map .vArr
    | .vStr s => (mqtt_get_remapped_list pd (charsOf s)).map .vArr
    | .vJsonStr w => (mqtt_get_remapped_list pd (charsOf (jsonDumps w))).map .vArr
    | .vObj kvs =>
        (mqtt_get_remapped_list pd (kvs.map (fun kv => .vStr kv.1))).map .vArr
    | _ => none
  else mqtt_get_remapped_value pd mapped_value

/-- `mqtt_get_encoded_property` (lines 522-530): map the value, then
serialize it to JSON text when `jsonType` is `array`, `object` or
`boolean`; other types pass the mapped value through natively. -/
def mqtt_get_encoded_property (pd : Pd) (value : PVal) : Option PVal :=
  match mqtt_get_mapped_property pd value with
  | none => none
  | some mv =>
    if pd.jsonType = some "array" ∨ pd.jsonType = some "object" ∨
        pd.jsonType = some "boolean" then
      some (.vJsonStr mv)
    else some mv

/-- `mqtt_get_decoded_property` (lines 533-538): parse the textual form
first when `jsonType` is `array` or `object` (note: not for `boolean`),
then apply the reverse mapping axis. -/
def mqtt_get_decoded_property (pd : Pd) (value : PVal) : Option PVal :=
  if pd.jsonType = some "array" ∨ pd.jsonType = some "object" then
    match jsonLoads value with
    | none => none
    | some dv => mqtt_get_remapped_property pd dv
  else mqtt_get_remapped_property pd value

/-! ### Lookup lemmas -/

lemma alookup_eq_none_of_not_mem {α : Type} :
    ∀ (m : List (String × α)) (k : String), k ∉ m.map Prod.fst → alookup m k = none := by
  intro m
  induction m with
  | nil => intro k _; rfl
  | cons kv rest ih =>
    intro k hk
    simp only [List.map_cons, List.mem_cons] at hk
    push_neg at hk
    have hne : kv.1 ≠ k := fun h => hk.1 h.symm
    simp only [alookup, if_neg hne]
    exact ih k hk.2

lemma firstLabelKey_eq_none_of_not_mem :
    ∀ (m : List (String × String)) (s : String), s ∉ m.map Prod.snd →
      firstLabelKey m (.vStr s) = none := by
  intro m
  induction m with
  | nil => intro s _; rfl
  | cons kv rest ih =>
    intro s hs
    simp only [List.map_cons, List.mem_cons] at hs
    push_neg at hs
    have hne : pyStrEq (.vStr s) kv.2 = false := by
      simp [pyStrEq, hs.1]
    simp only [firstLabelKey, hne, Bool.false_eq_true, if_false]
    exact ih s hs.2

lemma firstLabelKey_append_first :
    ∀ (pre : List (String × String)) (k L : String) (post : List (String × String)),
      L ∉ pre.map Prod.snd →
      firstLabelKey (pre ++ (k, L) :: post) (.vStr L) = some k := by
  intro pre
  induction pre with
  | nil =>
    intro k L post _
    simp [firstLabelKey, pyStrEq]
  | cons kv rest ih =>
    intro k L post hL
    simp only [List.map_cons, List.mem_cons] at hL
    push_neg at hL
    have hne : pyStrEq (.vStr L) kv.2 = false := by
      simp [pyStrEq, hL.1]
    simp only [List.cons_append, firstLabelKey, hne, Bool.false_eq_true, if_false]
    exact ih k L post hL.2

/-- C5: For every PropertyDefinition pd and every scalar v whose string
form is not a key of pd.valueMap, mqtt_get_mapped_value returns v
unchanged and does not raise; symmetrically, for every display scalar
not among pd.valueMap's values, mqtt_get_remapped_value returns the
display value unchanged and does not raise (`some` expresses the
absence of an exception). -/
theorem mqtt_unknown_value_fallback :
    (∀ (pd : Pd) (m : List (String × String)) (v : PVal),
        pd.valueMap = some m → pyToStr v ∉ m.map Prod.fst →
        mqtt_get_mapped_value pd v = v) ∧
    (∀ (pd : Pd) (m : List (String × String)) (s : String),
        pd.valueMap = some m → s ∉ m.map Prod.snd →
        mqtt_get_remapped_value pd (.vStr s) = some (.vStr s)) := by
  constructor
  · intro pd m v hm hv
    simp [mqtt_get_mapped_value, hm, alookup_eq_none_of_not_mem m _ hv]
  · intro pd m s hm hs
    simp [mqtt_get_remapped_value, hm, firstLabelKey_eq_none_of_not_mem m s hs]

/-- Witness for C5 at a concrete property definition and values. -/
theorem mqtt_unknown_value_fallback_witness :
    mqtt_get_mapped_value (Pd.leaf "amp" (some "integer") (some "R/W")
        (some [("3", "three")])) (.vInt 5) = .vInt 5 ∧
    mqtt_get_remapped_value (Pd.leaf "amp" (some "integer") (some "R/W")
        (some [("3", "three")])) (.vStr "five") = some (.vStr "five") :=
  ⟨mqtt_unknown_value_fallback.1 _ [("3", "three")] (.vInt 5) rfl (by decide),
   mqtt_unknown_value_fallback.2 _ [("3", "three")] "five" rfl (by decide)⟩

/-- C6: For every PropertyDefinition pd whose valueMap maps two or more
distinct raw keys to the same display label, mqtt_get_remapped_value
applied to that label returns (the JSON parse of) the raw key that
occurs first in the valueMap's declared order. -/
theorem mqtt_remap_duplicate_labels_first_key :
    ∀ (pd : Pd) (pre mid post : List (String × String)) (k₁ k₂ L : String) (w : PVal),
      pd.valueMap = some (pre ++ (k₁, L) :: (mid ++ (k₂, L) :: post)) →
      L ∉ pre.map Prod.snd →
      jsonLoadsStr k₁ = some w →
      mqtt_get_remapped_value pd (.vStr L) = some w := by
  intro pd pre mid post k₁ k₂ L w hm hL hk
  simp [mqtt_get_remapped_value, hm,
    firstLabelKey_append_first pre k₁ L (mid ++ (k₂, L) :: post) hL, hk]

/-- Witness for C6: keys "1" and "2" both labelled "On"; the first
declared key "1" wins and is parsed to the integer 1. -/
theorem mqtt_remap_duplicate_labels_first_key_witness :
    mqtt_get_remapped_value (Pd.leaf "d" (some "integer") none
        (some [("1", "On"), ("2", "On")])) (.vStr "On") = some (.vInt 1) :=
  mqtt_remap_duplicate_labels_first_key _ [] [] [] "1" "2" "On" (.vInt 1)
    rfl (by decide) rfl

/-- C10: For every PropertyDefinition pd with a valueMap and every
display label among the valueMap's values, mqtt_get_remapped_value
returns the JSON-parse of the first matching raw key string (not the
key string itself): the raw value's type comes from `json.loads` of the
key, not from pd.jsonType. -/
theorem mqtt_remap_json_parses_raw_key :
    ∀ (pd : Pd) (pre post : List (String × String)) (k L : String),
      pd.valueMap = some (pre ++ (k, L) :: post) →
      L ∉ pre.map Prod.snd →
      mqtt_get_remapped_value pd (.vStr L) = jsonLoadsStr k := by
  intro pd pre post k L hm hL
  simp [mqtt_get_remapped_value, hm, firstLabelKey_append_first pre k L post hL]

/-- Witness for C10: a label mapped from raw key "3" unmaps to the
integer 3 (not the string "3"), and one mapped from "true" unmaps to
the boolean true. -/
theorem mqtt_remap_json_parses_raw_key_witness :
    mqtt_get_remapped_value (Pd.leaf "p" (some "integer") none
        (some [("3", "L")])) (.vStr "L") = some (.vInt 3) ∧
    mqtt_get_remapped_value (Pd.leaf "q" (some "boolean") none
        (some [("true", "M")])) (.vStr "M") = some (.vBool true) := by
  constructor
  · rw [mqtt_remap_json_parses_raw_key
      (Pd.leaf "p" (some "integer") none (some [("3", "L")]))
      [] [] "3" "L" rfl (by decide)]
    rfl
  · rw [mqtt_remap_json_parses_raw_key
      (Pd.leaf "q" (some "boolean") none (some [("true", "M")]))
      [] [] "true" "M" rfl (by decide)]
    rfl

/-! ### The round-trip contract (C1) -/

/-- Whether a value is of the shape declared by a `jsonType` tag
(a dumped text is still a Python string; plain dicts are the JSON
object shape, namespaces are excluded since `json.loads` cannot
reproduce them). -/
def matchesType (t : String) (v : PVal) : Prop :=
  match v with
  | .vBool _ => t = "boolean"
  | .vInt _ => t = "integer"
  | .vFloat _ => t = "float"
  | .vStr _ => t = "string"
  | .vJsonStr _ => t = "string"
  | .vArr _ => t = "array"
  | .vObj _ => t = "object"
  | _ => False

lemma matchesType_integer {v : PVal} (h : matchesType "integer" v) :
    ∃ n, v = .vInt n := by
  cases v <;> simp [matchesType] at h <;> exact ⟨_, rfl⟩

lemma matchesType_float {v : PVal} (h : matchesType "float" v) :
    ∃ q, v = .vFloat q := by
  cases v <;> simp [matchesType] at h <;> exact ⟨_, rfl⟩

lemma matchesType_string {v : PVal} (h : matchesType "string" v) :
    (∃ s, v = .vStr s) ∨ (∃ w, v = .vJsonStr w) := by
  cases v <;> simp [matchesType] at h
  · exact Or.inl ⟨_, rfl⟩
  · exact Or.inr ⟨_, rfl⟩

lemma matchesType_array {v : PVal} (h : matchesType "array" v) :
    ∃ l, v = .vArr l := by
  cases v <;> simp [matchesType] at h <;> exact ⟨_, rfl⟩

lemma matchesType_object {v : PVal} (h : matchesType "object" v) :
    ∃ kvs, v = .vObj kvs := by
  cases v <;> simp [matchesType] at h <;> exact ⟨_, rfl⟩

/-- A scalar whose value-map round trip is lossless: its `str` form is
a key, and the first key sharing that key's label JSON-parses back to
the scalar itself. -/
def scalarMapOk (m : List (String × String)) (s : PVal) : Prop :=
  ∃ L k, alookup m (pyToStr s) = some L ∧ firstLabelKey m (.vStr L) = some k ∧
    jsonLoadsStr k = some s

/-- The valid domain of a property definition for the round-trip
contract: with no value map every value qualifies; with a value map
each scalar (each element for `array`, the value itself otherwise)
must satisfy `scalarMapOk`. -/
def domOk (pd : Pd) (v : PVal) : Prop :=
  match pd.valueMap with
  | none => True
  | some m =>
    if pd.jsonType = some "array" then
      match v with
      | .vArr l => ∀ e ∈ l, scalarMapOk m e
      | _ => False
    else scalarMapOk m v

lemma mapValue_nomap (pd : Pd) (hm : pd.valueMap = none) (v : PVal) :
    mqtt_get_mapped_value pd v = v := by
  simp [mqtt_get_mapped_value, hm]

lemma remapValue_nomap (pd : Pd) (hm : pd.valueMap = none) (v : PVal) :
    mqtt_get_remapped_value pd v = some v := by
  simp [mqtt_get_remapped_value, hm]

/-- A scalar in the valid domain survives map-then-remap. -/
lemma scalar_roundtrip (pd : Pd) (v : PVal)
    (h : ∀ m, pd.valueMap = some m → scalarMapOk m v) :
    mqtt_get_remapped_value pd (mqtt_get_mapped_value pd v) = some v := by
  cases hm : pd.valueMap with
  | none => rw [mapValue_nomap pd hm, remapValue_nomap pd hm]
  | some m =>
    obtain ⟨L, k, hL, hk, hp⟩ := h m hm
    simp [mqtt_get_mapped_value, hm, hL, mqtt_get_remapped_value, hk, hp]

lemma jsonNormList_eq_self :
    ∀ l : List PVal, (∀ x ∈ l, jsonNorm x = x) → jsonNormList l = l := by
  intro l
  induction l with
  | nil => intro _; simp [jsonNormList]
  | cons v r ih =>
    intro h
    simp only [jsonNormList]
    rw [h v (List.mem_cons_self v r), ih (fun x hx => h x (List.mem_cons_of_mem v hx))]

lemma forall_jsonNorm_of_list :
    ∀ l : List PVal, jsonNormList l = l → ∀ x ∈ l, jsonNorm x = x := by
  intro l
  induction l with
  | nil => intro _ x hx; exact absurd hx (List.not_mem_nil x)
  | cons v r ih =>
    intro h
    simp only [jsonNormList] at h
    injection h with h1 h2
    intro x hx
    rcases List.mem_cons.mp hx with rfl | hx2
    · exact h1
    · exact ih h2 x hx2

lemma remapped_list_of_map (pd : Pd) :
    ∀ l : List PVal,
      (∀ e ∈ l, mqtt_get_remapped_value pd (mqtt_get_mapped_value pd e) = some e) →
      mqtt_get_remapped_list pd (l.map (mqtt_get_mapped_value pd)) = some l := by
  intro l
  induction l with
  | nil => intro _; rfl
  | cons e rest ih =>
    intro h
    have he := h e (List.mem_cons_self e rest)
    have hrest := ih (fun x hx => h x (List.mem_cons_of_mem e hx))
    simp only [List.map_cons, mqtt_get_remapped_list, he, hrest]

/-- C1 counterexample: the claimed round trip fails for
`jsonType = boolean`.  For a boolean property without a value map,
encoding serializes the boolean to JSON text but decoding does not
parse it back (only `array`/`object` are parsed), so the decoded value
is the text, not the boolean. -/
theorem mqtt_roundtrip_boolean_fails :
    (mqtt_get_encoded_property (Pd.leaf "x" (some "boolean") none) (.vBool true)).bind
      (mqtt_get_decoded_property (Pd.leaf "x" (some "boolean") none))
      ≠ some (.vBool true) := by
  have h1 : (mqtt_get_encoded_property (Pd.leaf "x" (some "boolean") none)
      (.vBool true)).bind
      (mqtt_get_decoded_property (Pd.leaf "x" (some "boolean") none))
      = some (.vJsonStr (.vBool true)) := rfl
  rw [h1]
  intro h
  injection h with h2
  exact PVal.noConfusion h2

/-- C1 (amended): decode(pd, encode(pd, v)) == v holds for every
jsonType in {integer, float, string, array, object} and every v of
that shape in pd's valid domain — where the valid domain requires each
scalar's value-map key (when a valueMap is present) to JSON-parse back
to that scalar with no earlier duplicate label, and requires array and
object values to be exactly JSON-representable (`jsonNorm v = v`: no
namespace values and no serialized-text wrappers anywhere inside,
since `json.loads` reproduces only plain JSON data) — including arrays
with repeated elements and the empty array; for jsonType boolean the
round trip fails (see the counterexample), because the encoder
serializes booleans to JSON text but the decoder never parses boolean
text. -/
theorem mqtt_roundtrip_amended :
    ∀ (pd : Pd) (t : String) (v : PVal),
      pd.jsonType = some t →
      (t = "integer" ∨ t = "float" ∨ t = "string" ∨ t = "array" ∨ t = "object") →
      matchesType t v →
      (t = "array" ∨ t = "object" → jsonNorm v = v) →
      domOk pd v →
      (mqtt_get_encoded_property pd v).bind (mqtt_get_decoded_property pd)
        = some v := by
  intro pd t v hJT ht hshape hnorm hdom
  rcases ht with rfl | rfl | rfl | rfl | rfl
  · -- integer
    obtain ⟨n, rfl⟩ := matchesType_integer hshape
    have hd : ∀ m, pd.valueMap = some m → scalarMapOk m (.vInt n) := by
      intro m hm
      simpa [domOk, hm, hJT] using hdom
    have hrt := scalar_roundtrip pd (.vInt n) hd
    simp [mqtt_get_encoded_property, mqtt_get_mapped_property, hJT,
      mqtt_get_decoded_property, mqtt_get_remapped_property, hrt]
  · -- float
    obtain ⟨q, rfl⟩ := matchesType_float hshape
    have hd : ∀ m, pd.valueMap = some m → scalarMapOk m (.vFloat q) := by
      intro m hm
      simpa [domOk, hm, hJT] using hdom
    have hrt := scalar_roundtrip pd (.vFloat q) hd
    simp [mqtt_get_encoded_property, mqtt_get_mapped_property, hJT,
      mqtt_get_decoded_property, mqtt_get_remapped_property, hrt]
  · -- string
    have hd : ∀ m, pd.valueMap = some m → scalarMapOk m v := by
      intro m hm
      simpa [domOk, hm, hJT] using hdom
    have hrt := scalar_roundtrip pd v hd
    rcases matchesType_string hshape with ⟨s, rfl⟩ | ⟨w, rfl⟩ <;>
      simp [mqtt_get_encoded_property, mqtt_get_mapped_property, hJT,
        mqtt_get_decoded_property, mqtt_get_remapped_property, hrt]
  · -- array
    obtain ⟨l, rfl⟩ := matchesType_array hshape
    have hln : jsonNormList l = l := by
      have h2 : PVal.vArr (jsonNormList l) = PVal.vArr l := by
        rw [show PVal.vArr (jsonNormList l) = jsonNorm (.vArr l) from by
          simp [jsonNorm]]
        exact hnorm (Or.inl rfl)
      injection h2
    have helem : ∀ e ∈ l,
        mqtt_get_remapped_value pd (mqtt_get_mapped_value pd e) = some e := by
      intro e he
      apply scalar_roundtrip
      intro m hm
      simp only [domOk, hm, hJT, if_pos rfl] at hdom
      exact hdom e he
    have hmapped : ∀ x ∈ l.map (mqtt_get_mapped_value pd), jsonNorm x = x := by
      intro x hx
      obtain ⟨e, he, rfl⟩ := List.mem_map.mp hx
      cases hm : pd.valueMap with
      | none =>
        rw [mapValue_nomap pd hm]
        exact forall_jsonNorm_of_list l hln e he
      | some m =>
        have hdm : ∀ e ∈ l, scalarMapOk m e := by
          simp only [domOk, hm, hJT, if_pos rfl] at hdom
          exact hdom
        obtain ⟨L, k, hL, _, _⟩ := hdm e he
        simp [mqtt_get_mapped_value, hm, hL, jsonNorm]
    have hmn : jsonNormList (l.map (mqtt_get_mapped_value pd))
        = l.map (mqtt_get_mapped_value pd) :=
      jsonNormList_eq_self _ hmapped
    have hlist := remapped_list_of_map pd l helem
    simp [mqtt_get_encoded_property, mqtt_get_mapped_property, hJT,
      mqtt_get_decoded_property, jsonLoads, jsonNorm, hmn,
      mqtt_get_remapped_property, hlist]
  · -- object
    obtain ⟨kvs, rfl⟩ := matchesType_object hshape
    have hd : ∀ m, pd.valueMap = some m → scalarMapOk m (.vObj kvs) := by
      intro m hm
      simpa [domOk, hm, hJT] using hdom
    have hrt := scalar_roundtrip pd (.vObj kvs) hd
    have hmn : jsonNorm (mqtt_get_mapped_value pd (.vObj kvs))
        = mqtt_get_mapped_value pd (.vObj kvs) := by
      cases hm : pd.valueMap with
      | none =>
        rw [mapValue_nomap pd hm]
        exact hnorm (Or.inr rfl)
      | some m =>
        obtain ⟨L, k, hL, _, _⟩ := hd m hm
        simp [mqtt_get_mapped_value, hm, hL, jsonNorm]
    simp [mqtt_get_encoded_property, mqtt_get_mapped_property, hJT,
      mqtt_get_decoded_property, jsonLoads, hmn,
      mqtt_get_remapped_property, hrt]

/-- Witness for the amended C1: an array property with a value map and
a repeated element round-trips. -/
theorem mqtt_roundtrip_amended_witness :
    (mqtt_get_encoded_property
        (Pd.leaf "arr" (some "array") none (some [("3", "three")]))
        (.vArr [.vInt 3, .vInt 3])).bind
      (mqtt_get_decoded_property
        (Pd.leaf "arr" (some "array") none (some [("3", "three")])))
      = some (.vArr [.vInt 3, .vInt 3]) := by
  apply mqtt_roundtrip_amended
      (Pd.leaf "arr" (some "array") none (some [("3", "three")])) "array"
  · rfl
  · tauto
  · trivial
  · intro _
    simp [jsonNorm, jsonNormList]
  · show ∀ e ∈ [PVal.vInt 3, PVal.vInt 3], scalarMapOk [("3", "three")] e
    intro e he
    simp only [List.mem_cons, List.not_mem_nil, or_false] at he
    rcases he with h | h <;> subst h <;> exact ⟨"three", "3", rfl, rfl, rfl⟩

/-! ### Home Assistant component derivation (C4) -/

/-- `ha_get_component_for_prop` (lines 697-711): the Python guard
`"rw" in prop_info and prop_info["rw"] == x` is `prop_info.rw = some x`. -/
def ha_get_component_for_prop (prop_info : Pd) : String :=
  if prop_info.rw = some "R/W" then
    if prop_info.valueMap.isSome then "select"
    else if prop_info.jsonType = some "boolean" then "switch"
    else if prop_info.jsonType = some "float" then "number"
    else if prop_info.jsonType = some "integer" then "number"
    else "sensor"
  else if prop_info.rw = some "R" then
    if prop_info.jsonType = some "boolean" then "binary_sensor"
    else "sensor"
  else "sensor"

/-- The component actually used by `ha_discover_property`
(lines 745-750): the derived component, overridden by an explicit
`pd["homeAssistant"]["component"]` when present (`pd["homeAssistant"]
or {}` collapses a null block to an empty dict). -/
def ha_component_for_discovery (pd : Pd) : String :=
  let ha_info := pd.homeAssistant.getD { component := none }
  match ha_info.component with
  | some c => c
  | none => ha_get_component_for_prop pd

/-- The derivation rule in the words of the amended claim: an explicit
homeAssistant.component wins; otherwise select for rw = R/W with a
valueMap (precedence over jsonType), switch for R/W booleans, number
for R/W float/integer, binary_sensor for explicitly rw = R booleans,
sensor in all other cases — a property with no rw field yields sensor
even when boolean. -/
def componentSpecAmended (pd : Pd) : String :=
  match (pd.homeAssistant.getD { component := none }).component with
  | some c => c
  | none =>
    if pd.rw = some "R/W" ∧ pd.valueMap.isSome then "select"
    else if pd.rw = some "R/W" ∧ pd.jsonType = some "boolean" then "switch"
    else if pd.rw = some "R/W" ∧
        (pd.jsonType = some "float" ∨ pd.jsonType = some "integer") then "number"
    else if pd.rw = some "R" ∧ pd.jsonType = some "boolean" then "binary_sensor"
    else "sensor"

/-- C4 counterexample: the claim derives binary_sensor for a read-only
boolean where "absent rw implies R", but a boolean property with no rw
field gets the plain sensor component (the code requires an explicit
rw = R for binary_sensor). -/
theorem ha_component_absent_rw_boolean :
    ha_component_for_discovery (Pd.leaf "x" (some "boolean") none)
      ≠ "binary_sensor" := by decide

/-- C4 (amended): the derived discovery component is select for
rw = R/W with a valueMap (precedence over jsonType), switch for R/W
booleans, number for R/W float/integer, binary_sensor for explicitly
rw = R booleans and sensor in every other case (in particular when rw
is absent, whatever the jsonType); an explicit
pd.homeAssistant.component overrides all of the above. -/
theorem ha_component_for_discovery_characterization :
    ∀ pd : Pd, ha_component_for_discovery pd = componentSpecAmended pd := by
  intro pd
  cases hc : (pd.homeAssistant.getD { component := none }).component with
  | some c => simp [ha_component_for_discovery, componentSpecAmended, hc]
  | none =>
    simp only [ha_component_for_discovery, componentSpecAmended, hc]
    by_cases h1 : pd.rw = some "R/W" <;> by_cases h2 : pd.valueMap.isSome <;>
      by_cases h3 : pd.jsonType = some "boolean" <;>
      by_cases h4 : pd.rw = some "R" <;>
      by_cases h5 : pd.jsonType = some "float" <;>
      by_cases h6 : pd.jsonType = some "integer" <;>
      simp_all [ha_get_component_for_prop]

/-! ### Topic template substitution (C8) -/

/-- `re.sub(r'^~', MQTT_TOPIC_PROPERTY_BASE, s)` (line 607): replace a
tilde at position 0 only; every other character, including later
tildes, is untouched. -/
def expandTilde (base : String) (s : String) : String :=
  match s.data with
  | c :: rest => if c = '~' then base ++ String.mk rest else s
  | [] => s

/-- Python `str.format(**values)` over `{name}` placeholders: doubled
braces are literals, an unterminated or dangling brace and a
placeholder missing from `values` raise (`none`).  The fuel is the
remaining length, so it never runs out. -/
def pyFormatGo (values : List (String × String)) : Nat → List Char → Option (List Char)
  | _, [] => some []
  | 0, _ :: _ => none
  | fuel + 1, c :: cs =>
    if c = lbraceChar then
      match cs with
      | [] => none
      | c2 :: cs2 =>
        if c2 = lbraceChar then
          (pyFormatGo values fuel cs2).map (lbraceChar :: ·)
        else
          let nameCs := cs.takeWhile (fun d => d != rbraceChar)
          let rest := cs.dropWhile (fun d => d != rbraceChar)
          match rest with
          | [] => none
          | _ :: rest2 =>
            match alookup values (String.mk nameCs) with
            | none => none
            | some v => (pyFormatGo values fuel rest2).map (v.data ++ ·)
    else if c = rbraceChar then
      match cs with
      | [] => none
      | c2 :: cs2 =>
        if c2 = rbraceChar then
          (pyFormatGo values fuel cs2).map (rbraceChar :: ·)
        else none
    else (pyFormatGo values fuel cs).map (c :: ·)

def pyFormat (s : String) (values : List (String × String)) : Option String :=
  (pyFormatGo values s.data.length s.data).map String.mk

/-- `mqtt_subst_topic` (lines 605-611): expand the leading tilde when
requested, inject `baseTopic` (an explicit entry in `values` wins,
like the dict union `{"baseTopic": ...} | values`), then substitute.
The globals `MQTT_TOPIC_PROPERTY_BASE` and `MQTT_TOPIC_BASE` are
passed as the first two parameters. -/
def mqtt_subst_topic (propertyBase baseTopic : String) (s : String)
    (values : List (String × String)) (expand : Bool) : Option String :=
  let s1 := if expand then expandTilde propertyBase s else s
  pyFormat s1 (values ++ [("baseTopic", baseTopic)])

/-- C8: with expansion requested a leading tilde is replaced by the
property-base template before placeholder substitution while a
non-leading template is left alone; baseTopic is injected
automatically and an explicit values entry overrides it; and the
template `~/set` with property base `{baseTopic}/properties/{propName}`
and values baseTopic = wattpilot, propName = amp yields
`wattpilot/properties/amp/set`. -/
theorem mqtt_subst_topic_contract :
    (∀ (base bt s : String) (values : List (String × String)),
        mqtt_subst_topic base bt ("~" ++ s) values true
          = pyFormat (base ++ s) (values ++ [("baseTopic", bt)])) ∧
    (∀ (base bt s : String) (values : List (String × String)),
        s.data.head? ≠ some '~' →
        mqtt_subst_topic base bt s values true
          = pyFormat s (values ++ [("baseTopic", bt)])) ∧
    (∀ base bt : String,
        mqtt_subst_topic base bt "{baseTopic}" [] false = some bt) ∧
    (∀ base bt x : String,
        mqtt_subst_topic base bt "{baseTopic}" [("baseTopic", x)] false = some x) ∧
    mqtt_subst_topic "{baseTopic}/properties/{propName}" "wattpilot" "~/set"
        [("baseTopic", "wattpilot"), ("propName", "amp")] true
      = some "wattpilot/properties/amp/set" := by
  refine ⟨?_, ?_, ?_, ?_, ?_⟩
  · intro base bt s values
    rfl
  · intro base bt s values h
    cases hd : s.data with
    | nil =>
      have hs : expandTilde base s = s := by simp [expandTilde, hd]
      simp [mqtt_subst_topic, hs]
    | cons c rest =>
      rw [hd] at h
      have hc : c ≠ '~' := by
        intro hceq
        exact h (by rw [hceq]; rfl)
      have hs : expandTilde base s = s := by simp [expandTilde, hd, hc]
      simp [mqtt_subst_topic, hs]
  · intro base bt
    show (pyFormatGo [("baseTopic", bt)] 11 "{baseTopic}".data).map String.mk
      = some bt
    have : pyFormatGo [("baseTopic", bt)] 11 "{baseTopic}".data
        = some (bt.data ++ []) := rfl
    rw [this]
    simp
  · intro base bt x
    show (pyFormatGo [("baseTopic", x), ("baseTopic", bt)] 11
        "{baseTopic}".data).map String.mk = some x
    have : pyFormatGo [("baseTopic", x), ("baseTopic", bt)] 11 "{baseTopic}".data
        = some (x.data ++ []) := rfl
    rw [this]
    simp
  · rfl

/-- Witness for C8, instantiating the hypothesis-bearing conjunct: a
template with no leading tilde is substituted unexpanded. -/
theorem mqtt_subst_topic_contract_witness :
    mqtt_subst_topic "{baseTopic}/properties/{propName}" "wattpilot" "a/{propName}"
        [("propName", "amp")] true
      = pyFormat "a/{propName}" [("propName", "amp"), ("baseTopic", "wattpilot")] :=
  mqtt_subst_topic_contract.2.1 "{baseTopic}/properties/{propName}" "wattpilot"
    "a/{propName}" [("propName", "amp")] (by decide)

/-! ### Schema loading (C7) -/

/-- `utils_add_to_dict_unique` (lines 29-35): a duplicate key is logged
and discarded (the dictionary is returned unchanged); a fresh key is
appended in insertion order.  The function is total: no failure is
raised in either case. -/
def utils_add_to_dict_unique (d : List (String × Pd)) (k : String) (v : Pd) :
    List (String × Pd) :=
  if (alookup d k).isSome then d else d ++ [(k, v)]

/-- A parent as stored by wp_read_config: its child dicts are the same
objects that get stamped with `compoundProperty` during the loop, so
the stored parent carries stamped children. -/
def Pd.stampChildren : Pd → Pd
  | .mk k jt rw vm vr cp ha none => .mk k jt rw vm vr cp ha none
  | .mk k jt rw vm vr cp ha (some cs) =>
      .mk k jt rw vm vr cp ha (some (cs.map (fun c => c.setCompound k)))

/-- The property-loading loop of `wp_read_config` (lines 73-81): every
property is added, then each of its direct children (stamped with the
parent key), all through the duplicate-discarding insert. -/
def wp_load_properties (props : List Pd) : List (String × Pd) :=
  props.foldl
    (fun d p =>
      let d1 := utils_add_to_dict_unique d p.key p.stampChildren
      match p.childProps with
      | none => d1
      | some cs =>
          cs.foldl
            (fun d2 cp => utils_add_to_dict_unique d2 cp.key (cp.setCompound p.key))
            d1)
    []

/-- Spec-side description: the flattened declaration stream in catalog
order, each property followed by its direct children stamped with the
parent key. -/
def flattenedDecls (props : List Pd) : List (String × Pd) :=
  props.bind
    (fun p =>
      (p.key, p.stampChildren) ::
        (p.childProps.getD []).map (fun cp => (cp.key, cp.setCompound p.key)))

/-- First-some choice, the shape of a lookup through ordered shadowing. -/
def ofirst {α : Type} : Option α → Option α → Option α
  | some x, _ => some x
  | none, y => y

lemma alookup_append {α : Type} :
    ∀ (d1 d2 : List (String × α)) (k : String),
      alookup (d1 ++ d2) k = ofirst (alookup d1 k) (alookup d2 k) := by
  intro d1
  induction d1 with
  | nil => intro d2 k; rfl
  | cons kv rest ih =>
    intro d2 k
    by_cases h : kv.1 = k
    · simp [alookup, h, ofirst]
    · simp [alookup, h, ih]

lemma not_mem_of_alookup_eq_none {α : Type} :
    ∀ (d : List (String × α)) (k : String),
      alookup d k = none → k ∉ d.map Prod.fst := by
  intro d
  induction d with
  | nil => intro k _; simp
  | cons kv rest ih =>
    intro k h
    by_cases he : kv.1 = k
    · simp [alookup, he] at h
    · simp only [alookup, if_neg he] at h
      simp only [List.map_cons, List.mem_cons]
      push_neg
      exact ⟨fun hk => he hk.symm, ih k h⟩

lemma alookup_foldl_addUnique :
    ∀ (l : List (String × Pd)) (d : List (String × Pd)) (k : String),
      alookup (l.foldl (fun d2 kv => utils_add_to_dict_unique d2 kv.1 kv.2) d) k
        = ofirst (alookup d k) (alookup l k) := by
  intro l
  induction l with
  | nil =>
    intro d k
    simp only [List.foldl_nil, alookup]
    cases alookup d k <;> rfl
  | cons kv rest ih =>
    intro d k
    simp only [List.foldl_cons]
    rw [ih]
    unfold utils_add_to_dict_unique
    by_cases hdup : (alookup d kv.1).isSome
    · simp only [hdup, if_true]
      by_cases hk : kv.1 = k
      · subst hk
        obtain ⟨x, hx⟩ := Option.isSome_iff_exists.mp hdup
        simp [alookup, hx, ofirst]
      · simp [alookup, hk]
    · have hfalse : (alookup d kv.1).isSome = false := by simpa using hdup
      simp only [hfalse, Bool.false_eq_true, if_false]
      rw [alookup_append]
      by_cases hk : kv.1 = k
      · subst hk
        have hnone : alookup d kv.1 = none := by
          cases h : alookup d kv.1
          · rfl
          · rw [h] at hdup; simp at hdup
        simp [hnone, alookup, ofirst]
      · simp [alookup, hk, ofirst]
        cases alookup d k <;> simp [ofirst]

lemma wp_load_properties_eq_foldl :
    ∀ (props : List Pd) (d : List (String × Pd)),
      props.foldl
        (fun d p =>
          let d1 := utils_add_to_dict_unique d p.key p.stampChildren
          match p.childProps with
          | none => d1
          | some cs =>
              cs.foldl
                (fun d2 cp =>
                  utils_add_to_dict_unique d2 cp.key (cp.setCompound p.key))
                d1)
        d
        = (flattenedDecls props).foldl
            (fun d2 kv => utils_add_to_dict_unique d2 kv.1 kv.2) d := by
  intro props
  induction props with
  | nil => intro d; rfl
  | cons p ps ih =>
    intro d
    have hfd : flattenedDecls (p :: ps)
        = ((p.key, p.stampChildren) ::
            (p.childProps.getD []).map (fun cp => (cp.key, cp.setCompound p.key)))
          ++ flattenedDecls ps := by
      simp [flattenedDecls]
    rw [List.foldl_cons, hfd, List.foldl_append, ← ih]
    congr 1
    rw [List.foldl_cons, List.foldl_map]
    cases hcp : p.childProps with
    | none => simp [hcp]
    | some cs => simp [hcp]

lemma keys_nodup_foldl_addUnique :
    ∀ (l : List (String × Pd)) (d : List (String × Pd)),
      ((d.map Prod.fst).Nodup) →
      (((l.foldl (fun d2 kv => utils_add_to_dict_unique d2 kv.1 kv.2) d).map
          Prod.fst).Nodup) := by
  intro l
  induction l with
  | nil => intro d h; exact h
  | cons kv rest ih =>
    intro d h
    simp only [List.foldl_cons]
    apply ih
    unfold utils_add_to_dict_unique
    by_cases hdup : (alookup d kv.1).isSome
    · simp only [hdup, if_true]; exact h
    · simp only [hdup, if_false]
      have hnone : alookup d kv.1 = none := by
        cases hx : alookup d kv.1
        · rfl
        · rw [hx] at hdup; simp at hdup
      have hnm := not_mem_of_alookup_eq_none d kv.1 hnone
      simp [List.nodup_append, h, hnm]

/-- C7: For every catalog, the loaded property schema maps every key
to the first-declared definition (top-level or flattened child)
bearing it: a later duplicate is discarded, an earlier entry is never
overwritten, and loading is total (never a hard failure); moreover the
loaded schema holds no duplicate keys. -/
theorem wp_load_first_writer_wins :
    ∀ props : List Pd,
      (∀ k : String,
        alookup (wp_load_properties props) k = alookup (flattenedDecls props) k) ∧
      ((wp_load_properties props).map Prod.fst).Nodup := by
  intro props
  constructor
  · intro k
    unfold wp_load_properties
    rw [wp_load_properties_eq_foldl props [], alookup_foldl_addUnique]
    rfl
  · unfold wp_load_properties
    rw [wp_load_properties_eq_foldl props []]
    exact keys_nodup_foldl_addUnique (flattenedDecls props) [] (by simp)

/-! ### The watch registry (C9) -/

/-- The shell's watch state: the two watched-name lists
(`shell_watching_messages`, `shell_watching_properties`) and whether
the shared message / property callback is currently registered with
the device session. -/
structure ShellWatchState where
  watchingMessages : List String
  watchingProperties : List String
  msgCallbackRegistered : Bool
  propCallbackRegistered : Bool
deriving DecidableEq, Repr

/-- Externally observable effects of a watch command. -/
inductive WEvent where
  | register
  | deregister
  | error
deriving DecidableEq, Repr

/-- The `message` branch of `do_watch` (lines 379-387): an unknown
type is a user error; the first watch registers the shared callback;
an already-watched type is not appended again. -/
def do_watch_message (knownMsgs : List String) (st : ShellWatchState)
    (t : String) : ShellWatchState × List WEvent :=
  if t ∉ knownMsgs then (st, [.error])
  else
    let r := if st.watchingMessages.isEmpty then
        ({ st with msgCallbackRegistered := true }, [WEvent.register])
      else (st, [])
    if t ∈ r.1.watchingMessages then r
    else ({ r.1 with watchingMessages := r.1.watchingMessages ++ [t] }, r.2)

/-- The `property` branch of `do_watch` (lines 388-396). -/
def do_watch_property (knownProps : List String) (st : ShellWatchState)
    (n : String) : ShellWatchState × List WEvent :=
  if n ∉ knownProps then (st, [.error])
  else
    let r := if st.watchingProperties.isEmpty then
        ({ st with propCallbackRegistered := true }, [WEvent.register])
      else (st, [])
    if n ∈ r.1.watchingProperties then r
    else ({ r.1 with watchingProperties := r.1.watchingProperties ++ [n] }, r.2)

/-- The `message` branch of `do_unwatch` (lines 325-330): unwatching a
name that is not watched is a user error and changes nothing;
otherwise the name is removed and the shared callback is deregistered
when the set becomes empty. -/
def do_unwatch_message (st : ShellWatchState) (t : String) :
    ShellWatchState × List WEvent :=
  if t ∉ st.watchingMessages then (st, [.error])
  else
    let w := st.watchingMessages.erase t
    if w.isEmpty then
      ({ st with watchingMessages := w, msgCallbackRegistered := false },
       [.deregister])
    else ({ st with watchingMessages := w }, [])

/-- The `property` branch of `do_unwatch` (lines 331-336). -/
def do_unwatch_property (st : ShellWatchState) (n : String) :
    ShellWatchState × List WEvent :=
  if n ∉ st.watchingProperties then (st, [.error])
  else
    let w := st.watchingProperties.erase n
    if w.isEmpty then
      ({ st with watchingProperties := w, propCallbackRegistered := false },
       [.deregister])
    else ({ st with watchingProperties := w }, [])

inductive WatchOp where
  | watchMsg : String → WatchOp
  | unwatchMsg : String → WatchOp
  | watchProp : String → WatchOp
  | unwatchProp : String → WatchOp

def watchStep (knownMsgs knownProps : List String) (st : ShellWatchState) :
    WatchOp → ShellWatchState × List WEvent
  | .watchMsg t => do_watch_message knownMsgs st t
  | .unwatchMsg t => do_unwatch_message st t
  | .watchProp n => do_watch_property knownProps st n
  | .unwatchProp n => do_unwatch_property st n

def runWatchOps (knownMsgs knownProps : List String) :
    List WatchOp → ShellWatchState → ShellWatchState
  | [], st => st
  | op :: rest, st =>
      runWatchOps knownMsgs knownProps rest (watchStep knownMsgs knownProps st op).1

/-- The state at startup: nothing watched, no callback registered. -/
def initWatchState : ShellWatchState := ⟨[], [], false, false⟩

/-- The shared listener is registered exactly when the corresponding
watched set is non-empty. -/
def watchInv (st : ShellWatchState) : Prop :=
  st.msgCallbackRegistered = !st.watchingMessages.isEmpty ∧
  st.propCallbackRegistered = !st.watchingProperties.isEmpty

lemma watchInv_step (km kp : List String) (st : ShellWatchState) (op : WatchOp)
    (h : watchInv st) : watchInv (watchStep km kp st op).1 := by
  obtain ⟨h1, h2⟩ := h
  cases op with
  | watchMsg t =>
    simp only [watchStep, do_watch_message]
    by_cases hk : t ∉ km
    · simp [hk, watchInv, h1, h2]
    · by_cases he : st.watchingMessages.isEmpty
      · have : st.watchingMessages = [] := List.isEmpty_iff.mp he
        simp [hk, he, watchInv, this, h2]
      · have hne : (st.watchingMessages ++ [t]).isEmpty = false := by
          simp [List.isEmpty_iff]
        by_cases hm : t ∈ st.watchingMessages
        · simp [hk, he, hm, watchInv, h1, h2]
        · simp [hk, he, hm, watchInv, h1, h2, hne]
  | watchProp n =>
    simp only [watchStep, do_watch_property]
    by_cases hk : n ∉ kp
    · simp [hk, watchInv, h1, h2]
    · by_cases he : st.watchingProperties.isEmpty
      · have : st.watchingProperties = [] := List.isEmpty_iff.mp he
        simp [hk, he, watchInv, this, h1]
      · have hne : (st.watchingProperties ++ [n]).isEmpty = false := by
          simp [List.isEmpty_iff]
        by_cases hm : n ∈ st.watchingProperties
        · simp [hk, he, hm, watchInv, h1, h2]
        · simp [hk, he, hm, watchInv, h1, h2, hne]
  | unwatchMsg t =>
    simp only [watchStep, do_unwatch_message]
    by_cases hm : t ∉ st.watchingMessages
    · simp [hm, watchInv, h1, h2]
    · by_cases he : (st.watchingMessages.erase t).isEmpty
      · simp [hm, he, watchInv, h2]
      · simp [hm, he, watchInv, h1, h2]
        push_neg at hm
        exact List.ne_nil_of_mem hm
  | unwatchProp n =>
    simp only [watchStep, do_unwatch_property]
    by_cases hm : n ∉ st.watchingProperties
    · simp [hm, watchInv, h1, h2]
    · by_cases he : (st.watchingProperties.erase n).isEmpty
      · simp [hm, he, watchInv, h1]
      · simp [hm, he, watchInv, h1, h2]
        push_neg at hm
        exact List.ne_nil_of_mem hm

lemma watchInv_run (km kp : List String) :
    ∀ (ops : List WatchOp) (st : ShellWatchState),
      watchInv st → watchInv (runWatchOps km kp ops st) := by
  intro ops
  induction ops with
  | nil => intro st h; exact h
  | cons op rest ih =>
    intro st h
    exact ih _ (watchInv_step km kp st op h)

/-- C9: For every sequence of watch/unwatch operations, the shared
listener of each watch kind is registered iff the watched set of that
kind is non-empty; the first add registers it (exactly once, as the
emitted event list shows), adding an already-watched name changes
nothing and emits no event, a removal that empties the set
deregisters, and unwatching a never-watched name reports a user error
and leaves the state (set and registration alike) unchanged. -/
theorem watch_registry_contract :
    (∀ (km kp : List String) (ops : List WatchOp),
        watchInv (runWatchOps km kp ops initWatchState)) ∧
    (∀ (kp : List String) (st : ShellWatchState) (n : String),
        n ∈ kp → st.watchingProperties = [] →
        do_watch_property kp st n
          = ({ st with watchingProperties := [n], propCallbackRegistered := true },
             [WEvent.register])) ∧
    (∀ (kp : List String) (st : ShellWatchState) (n : String),
        n ∈ kp → n ∈ st.watchingProperties →
        do_watch_property kp st n = (st, [])) ∧
    (∀ (st : ShellWatchState) (n : String),
        st.watchingProperties = [n] →
        do_unwatch_property st n
          = ({ st with watchingProperties := [], propCallbackRegistered := false },
             [WEvent.deregister])) ∧
    (∀ (st : ShellWatchState) (n : String),
        n ∉ st.watchingProperties →
        do_unwatch_property st n = (st, [WEvent.error])) ∧
    (∀ (km : List String) (st : ShellWatchState) (t : String),
        t ∈ km → st.watchingMessages = [] →
        do_watch_message km st t
          = ({ st with watchingMessages := [t], msgCallbackRegistered := true },
             [WEvent.register])) ∧
    (∀ (km : List String) (st : ShellWatchState) (t : String),
        t ∈ km → t ∈ st.watchingMessages →
        do_watch_message km st t = (st, [])) ∧
    (∀ (st : ShellWatchState) (t : String),
        st.watchingMessages = [t] →
        do_unwatch_message st t
          = ({ st with watchingMessages := [], msgCallbackRegistered := false },
             [WEvent.deregister])) ∧
    (∀ (st : ShellWatchState) (t : String),
        t ∉ st.watchingMessages →
        do_unwatch_message st t = (st, [WEvent.error])) := by
  refine ⟨?_, ?_, ?_, ?_, ?_, ?_, ?_, ?_, ?_⟩
  · intro km kp ops
    exact watchInv_run km kp ops initWatchState ⟨rfl, rfl⟩
  · intro kp st n hk hnil
    simp [do_watch_property, hk, hnil]
  · intro kp st n hk hm
    have hne : st.watchingProperties.isEmpty = false := by
      simp [List.isEmpty_iff]
      intro hnil
      rw [hnil] at hm
      exact absurd hm (List.not_mem_nil n)
    simp [do_watch_property, hk, hne, hm]
  · intro st n hst
    simp [do_unwatch_property, hst, List.erase_cons_head]
  · intro st n hm
    simp [do_unwatch_property, hm]
  · intro km st t hk hnil
    simp [do_watch_message, hk, hnil]
  · intro km st t hk hm
    have hne : st.watchingMessages.isEmpty = false := by
      simp [List.isEmpty_iff]
      intro hnil
      rw [hnil] at hm
      exact absurd hm (List.not_mem_nil t)
    simp [do_watch_message, hk, hne, hm]
  · intro st t hst
    simp [do_unwatch_message, hst, List.erase_cons_head]
  · intro st t hm
    simp [do_unwatch_message, hm]

/-- Witness for C9: watching property "amp" from the empty state
registers the listener exactly once, and unwatching a never-watched
name is an error that changes nothing. -/
theorem watch_registry_contract_witness :
    do_watch_property ["amp"] initWatchState "amp"
      = ({ initWatchState with
            watchingProperties := ["amp"]
            propCallbackRegistered := true }, [WEvent.register]) ∧
    do_unwatch_property initWatchState "amp"
      = (initWatchState, [WEvent.error]) :=
  ⟨watch_registry_contract.2.1 ["amp"] initWatchState "amp" (by decide) rfl,
   watch_registry_contract.2.2.2.2.1 initWatchState "amp" (by decide)⟩

/-! ### The inbound set-value handler (C2) -/

inductive SetValueWarning where
  | unknownProperty : String → SetValueWarning
  | notWritable : String → SetValueWarning
deriving DecidableEq, Repr

/-- Outcome of the MQTT set-value handler: the warnings logged, the
update passed to `wp.send_update` (if any), and whether an exception
escaped the handler. -/
structure SetValueResult where
  warnings : List SetValueWarning
  sent : Option (String × PVal)
  raised : Bool

/-- The tail of `mqtt_set_value` after the unknown-property check:
`pd['rw']` raises KeyError when the field is absent; a read-only
property is warned about but execution continues; the decoded value is
passed to `wp.send_update`. -/
def mqtt_set_value_rest (pd : Pd) (name : String) (payload : String)
    (ws : List SetValueWarning) : SetValueResult :=
  match pd.rw with
  | none => { warnings := ws, sent := none, raised := true }
  | some rw =>
    let ws2 := if rw = "R" then ws ++ [SetValueWarning.notWritable name] else ws
    match mqtt_get_decoded_property pd (.vStr payload) with
    | none => { warnings := ws2, sent := none, raised := true }
    | some v => { warnings := ws2, sent := some (name, v), raised := false }

/-- `mqtt_set_value` (lines 650-663), from the extracted property name
onward.  The guard `not name or name == "" or not wp_propdef[name]`
evaluates `wp_propdef[name]` inside the condition, so an unknown
non-empty name raises KeyError before any warning is logged; an empty
name is warned about and then still raises on `wp_propdef[name]`
(unless "" is a key). -/
def mqtt_set_value (props : List (String × Pd)) (name : String)
    (payload : String) : SetValueResult :=
  if name = "" then
    match alookup props name with
    | none => { warnings := [SetValueWarning.unknownProperty name], sent := none,
                raised := true }
    | some pd => mqtt_set_value_rest pd name payload
        [SetValueWarning.unknownProperty name]
  else
    match alookup props name with
    | none => { warnings := [], sent := none, raised := true }
    | some pd => mqtt_set_value_rest pd name payload []

/-- C2: the claim says an unknown propName or a property with rw = R
is reported as a warning and not applied, with no exception escaping.
The code instead (a) still applies the update for a read-only
property — the warning is logged but `wp.send_update` is called —
and (b) raises an uncaught KeyError for an unknown name, before any
warning.  This theorem evaluates the handler at both failing inputs. -/
theorem mqtt_set_value_bug :
    (mqtt_set_value [("amp", Pd.leaf "amp" (some "integer") (some "R"))]
        "amp" "6").warnings = [SetValueWarning.notWritable "amp"] ∧
    (mqtt_set_value [("amp", Pd.leaf "amp" (some "integer") (some "R"))]
        "amp" "6").sent = some ("amp", .vStr "6") ∧
    (mqtt_set_value [("amp", Pd.leaf "amp" (some "integer") (some "R"))]
        "nope" "6").raised = true ∧
    (mqtt_set_value [("amp", Pd.leaf "amp" (some "integer") (some "R"))]
        "nope" "6").warnings = [] :=
  ⟨rfl, rfl, rfl, rfl⟩

/-! ### Compound property decomposition (C3) -/

/-- `int(x)` applied to a valueRef. -/
def pyIntOfString (s : String) : Option Int :=
  match s.data with
  | '-' :: ds =>
      if ds ≠ [] ∧ ds.all Char.isDigit then some (-(digitsToNat ds : Int)) else none
  | ds => if ds ≠ [] ∧ ds.all Char.isDigit then some (digitsToNat ds : Int) else none

def refToInt : VRef → Option Int
  | .idx n => some n
  | .field s => pyIntOfString s

/-- Python sequence indexing: non-negative indices from the front,
negative indices from the back, out of range raises (`none`). -/
def pyIndex (l : List PVal) (i : Int) : Option PVal :=
  if 0 ≤ i then l.get? i.toNat
  else if 0 ≤ (l.length : Int) + i then l.get? ((l.length : Int) + i).toNat
  else none

/-- Result of extracting one child value inside the decomposition loop
of `mqtt_publish_property` (lines 560-569). -/
inductive ExtractResult where
  | raised
  | skipped
  | got : PVal → ExtractResult

/-- One child extraction.  For an array parent, `v = value[int(ref)]`
is unguarded: a missing ref or bad index raises.  For an object
parent, `ref in value.__dict__` skips missing fields silently (an
integer ref is never among the string keys), but a value without
`__dict__` raises.  Any other declared jsonType skips the child, and
an absent jsonType raises on `pd["jsonType"]`. -/
def extractChild (pd : Pd) (value : PVal) (c : Pd) : ExtractResult :=
  match pd.jsonType with
  | none => .raised
  | some jt =>
    if jt = "array" then
      match c.valueRef with
      | none => .raised
      | some r =>
        match refToInt r with
        | none => .raised
        | some i =>
          match value with
          | .vArr l =>
            match pyIndex l i with
            | some v => .got v
            | none => .raised
          | .vStr s =>
            match pyIndex (charsOf s) i with
            | some v => .got v
            | none => .raised
          | .vJsonStr w =>
            match pyIndex (charsOf (jsonDumps w)) i with
            | some v => .got v
            | none => .raised
          | _ => .raised
    else if jt = "object" then
      match c.valueRef with
      | none => .raised
      | some r =>
        match value with
        | .vNs kvs =>
          match r with
          | .field s =>
            match alookup kvs s with
            | some v => .got v
            | none => .skipped
          | .idx _ => .skipped
        | _ => .raised
    else .skipped

/-- The child loop, in declared order; a raise aborts the whole
decomposition. -/
def decomposeLoop (pd : Pd) (value : PVal) : List Pd → Option (List (Pd × PVal))
  | [] => some []
  | c :: rest =>
    match extractChild pd value c with
    | .raised => none
    | .skipped => decomposeLoop pd value rest
    | .got v =>
      match decomposeLoop pd value rest with
      | none => none
      | some ps => some ((c, v) :: ps)

/-- The child-extraction phase of `mqtt_publish_property`
(lines 557-572, with decomposition enabled): the sequence of
(child, value) pairs handed to the recursive publish calls. -/
def decomposeChildren (pd : Pd) (value : PVal) : Option (List (Pd × PVal)) :=
  match pd.childProps with
  | none => some []
  | some cs => decomposeLoop pd value cs

/-- C3 counterexample: children with valueRef 0 and 2 against the raw
array value [10] do not yield only (child0, 10); the unguarded
`value[int(ref)]` raises IndexError and aborts the decomposition. -/
theorem decompose_out_of_range_raises :
    decomposeChildren
      (Pd.mk "cmp" (some "array") none none none none none
        (some [Pd.mk "c0" (some "integer") none none (some (.idx 0)) none none none,
               Pd.mk "c2" (some "integer") none none (some (.idx 2)) none none none]))
      (.vArr [.vInt 10]) = none ∧
    decomposeChildren
      (Pd.mk "cmp" (some "array") none none none none none
        (some [Pd.mk "c0" (some "integer") none none (some (.idx 0)) none none none,
               Pd.mk "c2" (some "integer") none none (some (.idx 2)) none none none]))
      (.vArr [.vInt 10])
      ≠ some [(Pd.mk "c0" (some "integer") none none (some (.idx 0)) none none none,
               PVal.vInt 10)] := by
  constructor
  · rfl
  · intro h
    have h2 : (none : Option (List (Pd × PVal)))
        = some [(Pd.mk "c0" (some "integer") none none (some (.idx 0)) none none none,
                 PVal.vInt 10)] := h
    exact Option.noConfusion h2

lemma decomposeLoop_object (pd : Pd) (fields : List (String × PVal))
    (hJT : pd.jsonType = some "object") :
    ∀ cs : List Pd,
      (∀ c ∈ cs, ∃ s, c.valueRef = some (.field s)) →
      decomposeLoop pd (.vNs fields) cs
        = some (cs.filterMap (fun c =>
            match c.valueRef with
            | some (.field s) => (alookup fields s).map (fun v => (c, v))
            | _ => none)) := by
  intro cs
  induction cs with
  | nil => intro _; rfl
  | cons c rest ih =>
    intro h
    obtain ⟨s, hs⟩ := h c (List.mem_cons_self c rest)
    have hrest := ih (fun x hx => h x (List.mem_cons_of_mem c hx))
    have hext : extractChild pd (.vNs fields) c
        = (match alookup fields s with
           | some v => .got v
           | none => .skipped) := by
      simp [extractChild, hJT, hs]
    cases hv : alookup fields s with
    | none =>
      rw [hv] at hext
      simp only [decomposeLoop, hext, hrest, List.filterMap_cons, hs, hv,
        Option.map_none']
    | some v =>
      rw [hv] at hext
      simp only [decomposeLoop, hext, hrest, List.filterMap_cons, hs, hv,
        Option.map_some']

lemma decomposeLoop_array_all_resolve (pd : Pd) (l : List PVal)
    (hJT : pd.jsonType = some "array") :
    ∀ cs : List Pd,
      (∀ c ∈ cs, ∃ n v, c.valueRef = some (.idx n) ∧ pyIndex l n = some v) →
      decomposeLoop pd (.vArr l) cs
        = some (cs.filterMap (fun c =>
            match c.valueRef with
            | some (.idx n) => (pyIndex l n).map (fun v => (c, v))
            | _ => none)) := by
  intro cs
  induction cs with
  | nil => intro _; rfl
  | cons c rest ih =>
    intro h
    obtain ⟨n, v, hn, hv⟩ := h c (List.mem_cons_self c rest)
    have hrest := ih (fun x hx => h x (List.mem_cons_of_mem c hx))
    have hext : extractChild pd (.vArr l) c = .got v := by
      simp [extractChild, hJT, hn, refToInt, hv]
    simp only [decomposeLoop, hext, hrest, List.filterMap_cons, hn, hv,
      Option.map_some']

lemma decomposeLoop_array_raises (pd : Pd) (l : List PVal)
    (hJT : pd.jsonType = some "array") (c : Pd) (n : Int)
    (hn : c.valueRef = some (.idx n)) (hv : pyIndex l n = none) :
    ∀ cs : List Pd, c ∈ cs → decomposeLoop pd (.vArr l) cs = none := by
  intro cs
  induction cs with
  | nil => intro h; exact absurd h (List.not_mem_nil c)
  | cons c0 rest ih =>
    intro h
    rcases List.mem_cons.mp h with rfl | hmem
    · have hext : extractChild pd (.vArr l) c = .raised := by
        simp [extractChild, hJT, hn, refToInt, hv]
      simp [decomposeLoop, hext]
    · cases hext : extractChild pd (.vArr l) c0 with
      | raised => simp [decomposeLoop, hext]
      | skipped => simp [decomposeLoop, hext, ih hmem]
      | got v0 => simp [decomposeLoop, hext, ih hmem]

/-- C3 (amended): for an array parent each child's valueRef is applied
as a direct Python index — when every declared child's valueRef is an
in-range (possibly negative) index, decomposition yields exactly the
(child, value) pairs in declared order, but an out-of-range index
raises IndexError and aborts the whole decomposition (nothing is
skipped silently for arrays); only for an object parent (a namespace
value) is a child whose field is absent skipped silently, yielding
exactly the resolvable children in declared order. -/
theorem decompose_children_amended :
    (∀ (pd : Pd) (cs : List Pd) (l : List PVal),
        pd.jsonType = some "array" → pd.childProps = some cs →
        (∀ c ∈ cs, ∃ n v, c.valueRef = some (.idx n) ∧ pyIndex l n = some v) →
        decomposeChildren pd (.vArr l)
          = some (cs.filterMap (fun c =>
              match c.valueRef with
              | some (.idx n) => (pyIndex l n).map (fun v => (c, v))
              | _ => none))) ∧
    (∀ (pd : Pd) (cs : List Pd) (l : List PVal) (c : Pd) (n : Int),
        pd.jsonType = some "array" → pd.childProps = some cs →
        c ∈ cs → c.valueRef = some (.idx n) → pyIndex l n = none →
        decomposeChildren pd (.vArr l) = none) ∧
    (∀ (pd : Pd) (cs : List Pd) (fields : List (String × PVal)),
        pd.jsonType = some "object" → pd.childProps = some cs →
        (∀ c ∈ cs, ∃ s, c.valueRef = some (.field s)) →
        decomposeChildren pd (.vNs fields)
          = some (cs.filterMap (fun c =>
              match c.valueRef with
              | some (.field s) => (alookup fields s).map (fun v => (c, v))
              | _ => none))) := by
  refine ⟨?_, ?_, ?_⟩
  · intro pd cs l hJT hcp h
    simp only [decomposeChildren, hcp]
    exact decomposeLoop_array_all_resolve pd l hJT cs h
  · intro pd cs l c n hJT hcp hmem hn hv
    simp only [decomposeChildren, hcp]
    exact decomposeLoop_array_raises pd l hJT c n hn hv cs hmem
  · intro pd cs fields hJT hcp h
    simp only [decomposeChildren, hcp]
    exact decomposeLoop_object pd fields hJT cs h

/-- Witness for the amended C3: children with valueRef 0 and 2 against
[10, 99, 20] yield exactly (child0, 10) and (child2, 20); an object
parent with one present and one absent field yields only the present
child. -/
theorem decompose_children_amended_witness :
    decomposeChildren
      (Pd.mk "cmp" (some "array") none none none none none
        (some [Pd.mk "c0" (some "integer") none none (some (.idx 0)) none none none,
               Pd.mk "c2" (some "integer") none none (some (.idx 2)) none none none]))
      (.vArr [.vInt 10, .vInt 99, .vInt 20])
      = some [(Pd.mk "c0" (some "integer") none none (some (.idx 0)) none none none,
               PVal.vInt 10),
              (Pd.mk "c2" (some "integer") none none (some (.idx 2)) none none none,
               PVal.vInt 20)] ∧
    decomposeChildren
      (Pd.mk "obj" (some "object") none none none none none
        (some [Pd.mk "oa" (some "integer") none none (some (.field "a")) none none none,
               Pd.mk "ob" (some "integer") none none (some (.field "b")) none none none]))
      (.vNs [("a", .vInt 7)])
      = some [(Pd.mk "oa" (some "integer") none none (some (.field "a")) none none none,
               PVal.vInt 7)] := by
  constructor
  · rw [decompose_children_amended.1
      (Pd.mk "cmp" (some "array") none none none none none
        (some [Pd.mk "c0" (some "integer") none none (some (.idx 0)) none none none,
               Pd.mk "c2" (some "integer") none none (some (.idx 2)) none none none]))
      [Pd.mk "c0" (some "integer") none none (some (.idx 0)) none none none,
       Pd.mk "c2" (some "integer") none none (some (.idx 2)) none none none]
      [.vInt 10, .vInt 99, .vInt 20] rfl rfl ?_]
    · rfl
    · intro c hc
      simp only [List.mem_cons, List.not_mem_nil, or_false] at hc
      rcases hc with rfl | rfl
      · exact ⟨0, .vInt 10, rfl, rfl⟩
      · exact ⟨2, .vInt 20, rfl, rfl⟩
  · rw [decompose_children_amended.2.2
      (Pd.mk "obj" (some "object") none none none none none
        (some [Pd.mk "oa" (some "integer") none none (some (.field "a")) none none none,
               Pd.mk "ob" (some "integer") none none (some (.field "b")) none none none]))
      [Pd.mk "oa" (some "integer") none none (some (.field "a")) none none none,
       Pd.mk "ob" (some "integer") none none (some (.field "b")) none none none]
      [("a", .vInt 7)] rfl rfl ?_]
    · rfl
    · intro c hc
      simp only [List.mem_cons, List.not_mem_nil, or_false] at hc
      rcases hc with rfl | rfl
      · exact ⟨"a", rfl⟩
      · exact ⟨"b", rfl⟩

end Wattpilot
